import Mathlib

/-!
Shallow embedding of the pii_scanner repository (pii_scanner/pii_scanner.py)
and proofs about it.  Python values appearing in table cells are modelled by
the inductive type Cell; the network is modelled by a function from attempt
index to the outcome of that attempt; the top-level driver is modelled as a
function from an environment to the list of observable events it produces.
-/

namespace PiiScan

/-- Model of a scalar table cell as pandas sees it: a missing value
(None or float NaN, for which pd.notna is false), a Python string, or an
integer. -/
inductive Cell
  | null
  | str (s : String)
  | num (n : Int)
deriving DecidableEq

/-- Model of pd.notna: false exactly on missing values. -/
def pyNotNa : Cell → Bool
  | .null => false
  | _ => true

/-- Model of the membership test on line 48 of pii_scanner.py:
value in [None, "", "nan", "NaN", "NAN"].  A Python string equals a
member iff it is one of the four string sentinels; None was already
excluded by pd.notna, and a number never equals a string or None. -/
def inEmptySentinels : Cell → Bool
  | .null => true
  | .str s => s == "" || s == "nan" || s == "NaN" || s == "NAN"
  | .num _ => false

/-- Decimal digit character for a value between 0 and 9. -/
def digitChar : Nat → Char
  | 0 => '0'
  | 1 => '1'
  | 2 => '2'
  | 3 => '3'
  | 4 => '4'
  | 5 => '5'
  | 6 => '6'
  | 7 => '7'
  | 8 => '8'
  | _ => '9'

/-- Decimal digit list of a natural number, most significant first,
modelling the Python rendering str(n) for a non-negative int. -/
def natDigs (n : Nat) : List Char :=
  if _h : n < 10 then [digitChar n]
  else natDigs (n / 10) ++ [digitChar (n % 10)]
  decreasing_by
    exact Nat.div_lt_self (by omega) (by omega)

/-- Model of the Python rendering str(n) for an int n. -/
def intStr (n : Int) : String :=
  if n < 0 then String.mk ('-' :: natDigs n.natAbs)
  else String.mk (natDigs n.natAbs)

/-- Model of the Python stringification str(value) of a cell.  The null
case is never reached by the scanner (pd.notna filters it first); float
NaN renders as "nan". -/
def pyStr : Cell → String
  | .null => "nan"
  | .str s => s
  | .num n => intStr n

/-- Characters removed at both ends by the Python str.strip() call. -/
def stripList (l : List Char) : List Char :=
  ((l.dropWhile Char.isWhitespace).reverse.dropWhile Char.isWhitespace).reverse

/-- Model of the Python str.strip() method: remove leading and trailing
whitespace. -/
def pyStrip (s : String) : String := String.mk (stripList s.data)

/-- Body of the inner loop of extract_non_null_data (lines 47-49): keep a
cell iff pd.notna(value) holds and the raw value is not one of the empty
sentinels; a kept value contributes str(value).strip(). -/
def cellKeep (v : Cell) : Option String :=
  if pyNotNa v && !inEmptySentinels v then some (pyStrip (pyStr v)) else none

/-- Model of extract_non_null_data (lines 44-50): visit every cell of the
chunk in row-major order, keeping the surviving stringified, stripped
values. -/
def extract_non_null_data (chunk : List (List Cell)) : List String :=
  chunk.flatMap (fun row => row.filterMap cellKeep)

/-- Join a list of character lists with single space characters, the
model of the Python " ".join. -/
def joinChars : List (List Char) → List Char
  | [] => []
  | [t] => t
  | t :: u :: rest => t ++ ' ' :: joinChars (u :: rest)

/-- Model of " ".join(tokens) on line 58 of pii_scanner.py. -/
def joinSpaces (ts : List String) : String :=
  String.mk (joinChars (ts.map String.data))

/-- Flattened text of a chunk: the space-joined extracted values
(line 58 of pii_scanner.py). -/
def dataset_text (chunk : List (List Cell)) : String :=
  joinSpaces (extract_non_null_data chunk)

/-- Per-cell keep function written from the words of the specification:
skip a cell when it is null/missing or when its stringification equals
one of the sentinels; otherwise keep the stringified, trimmed value. -/
def cellKeepSpec (v : Cell) : Option String :=
  if pyNotNa v = false then none
  else if pyStr v ∈ ["", "nan", "NaN", "NAN"] then none
  else some (pyStrip (pyStr v))

/-- Flattener tokens as described by the specification text. -/
def specTokens (chunk : List (List Cell)) : List String :=
  chunk.flatMap (fun row => row.filterMap cellKeepSpec)

/-- Outcome of one POST attempt against the inference endpoint: either a
transport-level failure (a requests exception) or an HTTP response with a
status code and, when the body is JSON, an optional response field. -/
inductive Outcome
  | transportFail
  | httpResponse (status : Nat) (respField : Option String)
deriving DecidableEq

/-- Observable result of scan_chunk_with_llm: the returned verdict (None
modelled as none), the list of sleep durations performed, and the number
of attempts made. -/
structure ScanResult where
  verdict : Option String
  sleeps : List Nat
  attempts : Nat
deriving DecidableEq

/-- Body of one iteration of the retry loop of scan_chunk_with_llm
(lines 53-95) at attempt index a, where fuel counts the attempts that
remain after this one and r is the result of the remaining iterations.
On a response, a 200 status returns the JSON response field (empty
string when missing) and any other status returns None at once; on a
transport failure the loop sleeps delay * (attempt + 1) and retries,
except on the final attempt (fuel = 0), which returns None without
sleeping. -/
def scanStep (delay a : Nat) (out : Outcome) (fuel : Nat) (r : ScanResult) : ScanResult :=
  match out with
  | .httpResponse s rf => ⟨if s = 200 then some (rf.getD "") else none, [], 1⟩
  | .transportFail =>
    match fuel with
    | 0 => ⟨none, [], 1⟩
    | _ + 1 => ⟨r.verdict, delay * (a + 1) :: r.sleeps, r.attempts + 1⟩

/-- Retry loop of scan_chunk_with_llm, recursing on the number of
attempts that remain; zero remaining attempts models the empty
range(retries) loop falling through and returning None. -/
def scanGo (outcome : Nat → Outcome) (delay : Nat) : Nat → Nat → ScanResult
  | _, 0 => ⟨none, [], 0⟩
  | a, fuel + 1 => scanStep delay a (outcome a) fuel (scanGo outcome delay (a + 1) fuel)

/-- Model of scan_chunk_with_llm with its retries and delay parameters
(defaults 5 and 5 in the source). -/
def scan_chunk_with_llm (outcome : Nat → Outcome) (retries delay : Nat) : ScanResult :=
  scanGo outcome delay 0 retries

/-- Per-chunk classification by the reporter. -/
inductive Report
  | clean
  | flagged (verdict : String)
  | skipped
deriving DecidableEq

/-- Check that the list needle occurs as a leading segment of hay. -/
def leadsList : List Char → List Char → Bool
  | [], _ => true
  | _ :: _, [] => false
  | a :: as, b :: bs => a == b && leadsList as bs

/-- Check that needle occurs contiguously somewhere inside hay. -/
def hasSub (needle : List Char) : List Char → Bool
  | [] => leadsList needle []
  | c :: t => leadsList needle (c :: t) || hasSub needle t

/-- Model of the Python substring test needle in hay. -/
def strContains (needle hay : String) : Bool := hasSub needle.data hay.data

/-- Reporter logic of process_file (lines 137-145): if result is truthy
(present and non-empty), a verdict containing "No PII detected" is clean
and any other verdict is flagged with its full text; a falsy result
(None or the empty string) is silently skipped. -/
def reportOf : Option String → Report
  | none => .skipped
  | some s =>
    if s = "" then .skipped
    else if strContains "No PII detected" s then .clean
    else .flagged s

/-- Model of check_ollama_server (lines 36-41): the GET probe either
raises (none) or yields a status code; the check succeeds only on 200. -/
def check_ollama_server (probe : Option Nat) : Bool :=
  match probe with
  | none => false
  | some s => s == 200

/-- Extension of a path, modelled on os.path.splitext: the suffix from
the last dot of the basename, provided some earlier character of the
basename is not a dot. -/
def extOfChars (cs : List Char) : List Char :=
  match cs.reverse.findIdx? (fun c => c == '.') with
  | none => []
  | some j =>
    let i := cs.length - 1 - j
    let base : Nat :=
      match cs.reverse.findIdx? (fun c => c == '/') with
      | none => 0
      | some k => cs.length - k
    if ((cs.take i).drop base).any (fun c => c != '.') then cs.drop i else []

/-- String form of extOfChars, the model of os.path.splitext(p)[1]. -/
def extOf (p : String) : String := String.mk (extOfChars p.data)

/-- Model of the Python str.lower() method for ASCII names. -/
def pyLower (s : String) : String := String.mk (s.data.map Char.toLower)

/-- What process_file does with a file before any parsing: load it as
CSV, load it as a spreadsheet, or log an unsupported-format warning and
return. -/
inductive FileAction
  | csvLoad
  | excelLoad
  | warnUnsupported
deriving DecidableEq

/-- Dispatch of process_file (lines 100-107) on the lowercased
extension. -/
def extDispatch (e : String) : FileAction :=
  if e = ".csv" then .csvLoad
  else if e = ".xls" ∨ e = ".xlsx" then .excelLoad
  else .warnUnsupported

/-- Format selection performed by process_file for a path. -/
def processFileAction (p : String) : FileAction :=
  extDispatch (pyLower (extOf p))

/-- Model of the Python str.endswith test: suff is a suffix of s. -/
def endsWithStr (s suff : String) : Bool :=
  leadsList suff.data.reverse s.data.reverse

/-- Filter used by main on line 162: a case-sensitive endswith test
against the three lower-case extensions. -/
def selectFile (f : String) : Bool :=
  endsWithStr f ".csv" || endsWithStr f ".xls" || endsWithStr f ".xlsx"

/-- Environment a run of main observes: whether the Data folder exists,
the probe outcome (none models a raised transport error), and the
directory listing. -/
structure Env where
  dataFolderExists : Bool
  probe : Option Nat
  files : List String
deriving DecidableEq

/-- Observable events of main: the three fatal or empty-run log lines,
and one event per file handed to process_file recording the action the
dispatch takes on it. -/
inductive MainEvent
  | logNoDataFolder
  | logServerUnavailable
  | logNoDatasets
  | fileAction (path : String) (act : FileAction)
deriving DecidableEq

/-- Model of main (lines 151-170): missing folder aborts; a failed
server check aborts; an empty filtered listing logs and returns;
otherwise every selected file is processed in order. -/
def main (env : Env) : List MainEvent :=
  if env.dataFolderExists = false then [.logNoDataFolder]
  else if check_ollama_server env.probe = false then [.logServerUnavailable]
  else
    let files := env.files.filter selectFile
    if files.isEmpty then [.logNoDatasets]
    else files.map (fun f => .fileAction ("Data/" ++ f) (processFileAction ("Data/" ++ f)))

/-- True when an event list contains no per-file event. -/
def noFileEvents (es : List MainEvent) : Bool :=
  es.all fun e =>
    match e with
    | .fileAction _ _ => false
    | _ => true

theorem scanGo_zero (o : Nat → Outcome) (d a : Nat) : scanGo o d a 0 = ⟨none, [], 0⟩ := rfl

theorem scanGo_succ_eq (o : Nat → Outcome) (d a f : Nat) :
    scanGo o d a (f + 1) = scanStep d a (o a) f (scanGo o d (a + 1) f) := rfl

theorem scanGo_resp (o : Nat → Outcome) (d a f s : Nat) (rf : Option String)
    (h : o a = Outcome.httpResponse s rf) :
    scanGo o d a (f + 1) = ⟨if s = 200 then some (rf.getD "") else none, [], 1⟩ := by
  rw [scanGo_succ_eq, h]
  rfl

theorem scanGo_fail_last (o : Nat → Outcome) (d a : Nat) (h : o a = Outcome.transportFail) :
    scanGo o d a 1 = ⟨none, [], 1⟩ := by
  rw [scanGo_succ_eq, h]
  rfl

theorem scanGo_fail_more (o : Nat → Outcome) (d a f : Nat) (h : o a = Outcome.transportFail) :
    scanGo o d a (f + 2) =
      ⟨(scanGo o d (a + 1) (f + 1)).verdict,
       d * (a + 1) :: (scanGo o d (a + 1) (f + 1)).sleeps,
       (scanGo o d (a + 1) (f + 1)).attempts + 1⟩ := by
  rw [scanGo_succ_eq, h]
  rfl

theorem scanGo_allFail (o : Nat → Outcome) (d : Nat) :
    ∀ (f a : Nat), (∀ j, j < f + 1 → o (a + j) = Outcome.transportFail) →
      scanGo o d a (f + 1) =
        ⟨none, (List.range' (a + 1) f).map (fun m => d * m), f + 1⟩ := by
  intro f
  induction f with
  | zero =>
    intro a h
    rw [scanGo_fail_last o d a (by simpa using h 0 (by omega))]
    rfl
  | succ f ih =>
    intro a h
    rw [scanGo_fail_more o d a f (by simpa using h 0 (by omega))]
    rw [ih (a + 1) (fun j hj => by
      have h2 := h (j + 1) (by omega)
      have e : a + (j + 1) = a + 1 + j := by omega
      rw [e] at h2
      exact h2)]
    simp [List.range'_succ]

theorem scanGo_failThen (o : Nat → Outcome) (d s : Nat) (rf : Option String) (hs : s ≠ 200) :
    ∀ (k f a : Nat), k < f →
      (∀ j, j < k → o (a + j) = Outcome.transportFail) →
      o (a + k) = Outcome.httpResponse s rf →
      scanGo o d a f = ⟨none, (List.range' (a + 1) k).map (fun m => d * m), k + 1⟩ := by
  intro k
  induction k with
  | zero =>
    intro f a hf hpre hres
    obtain ⟨g, rfl⟩ : ∃ g, f = g + 1 := ⟨f - 1, by omega⟩
    rw [scanGo_resp o d a g s rf (by simpa using hres)]
    simp [hs]
  | succ k ih =>
    intro f a hf hpre hres
    obtain ⟨g, rfl⟩ : ∃ g, f = g + 2 := ⟨f - 2, by omega⟩
    rw [scanGo_fail_more o d a g (by simpa using hpre 0 (by omega))]
    rw [ih (g + 1) (a + 1) (by omega)
      (fun j hj => by
        have h2 := hpre (j + 1) (by omega)
        have e : a + (j + 1) = a + 1 + j := by omega
        rw [e] at h2
        exact h2)
      (by
        have e : a + (k + 1) = a + 1 + k := by omega
        rw [e] at hres
        exact hres)]
    simp [List.range'_succ]

/-- C3: when every attempt raises a transport-level failure, the client
makes exactly 5 attempts, sleeps delay×1, delay×2, delay×3 and delay×4
between consecutive attempts with no sleep after the last one, and
returns None instead of raising. -/
theorem c3_transport_retry_exhaustion (outcome : Nat → Outcome) (delay : Nat)
    (h : ∀ j, j < 5 → outcome j = Outcome.transportFail) :
    scan_chunk_with_llm outcome 5 delay =
      ⟨none, [delay * 1, delay * 2, delay * 3, delay * 4], 5⟩ := by
  have h1 := scanGo_allFail outcome delay 4 0 (fun j hj => by simpa using h j hj)
  have e : (List.range' 1 4).map (fun m => delay * m) =
      [delay * 1, delay * 2, delay * 3, delay * 4] := rfl
  rw [e] at h1
  exact h1

theorem c3_witness :
    scan_chunk_with_llm (fun _ => Outcome.transportFail) 5 7 =
      ⟨none, [7 * 1, 7 * 2, 7 * 3, 7 * 4], 5⟩ :=
  c3_transport_retry_exhaustion (fun _ => Outcome.transportFail) 7 (fun _ _ => rfl)

/-- C4: a non-200 HTTP response on attempt k (after k transport failures)
makes the client return None from that very attempt: exactly k+1 attempts
happen and the only sleeps are the k backoff sleeps that preceded the
response, so a non-200 answer triggers no further retry and no further
delay. -/
theorem c4_non200_immediate_none (outcome : Nat → Outcome) (delay k s : Nat)
    (rf : Option String) (hk : k < 5)
    (hpre : ∀ j, j < k → outcome j = Outcome.transportFail)
    (hs : s ≠ 200) (hres : outcome k = Outcome.httpResponse s rf) :
    scan_chunk_with_llm outcome 5 delay =
      ⟨none, (List.range' 1 k).map (fun m => delay * m), k + 1⟩ :=
  scanGo_failThen outcome delay s rf hs k 5 0 hk
    (fun j hj => by simpa using hpre j hj) (by simpa using hres)

theorem c4_witness :
    scan_chunk_with_llm (fun _ => Outcome.httpResponse 500 none) 5 7 = ⟨none, [], 1⟩ :=
  c4_non200_immediate_none (fun _ => Outcome.httpResponse 500 none) 7 0 500 none
    (by omega) (fun j hj => absurd hj (by omega)) (by omega) rfl

/-- C9: an HTTP 200 answer on the first attempt returns the JSON
response field as the Verdict after one attempt with no sleeps; a
missing response field and an empty response field both yield the empty
string, not None. -/
theorem c9_http200_returns_field (outcome : Nat → Outcome) (delay : Nat)
    (rf : Option String) (h0 : outcome 0 = Outcome.httpResponse 200 rf) :
    scan_chunk_with_llm outcome 5 delay = ⟨some (rf.getD ""), [], 1⟩ ∧
      scan_chunk_with_llm (fun _ => Outcome.httpResponse 200 none) 5 delay =
        ⟨some "", [], 1⟩ ∧
      scan_chunk_with_llm (fun _ => Outcome.httpResponse 200 (some "")) 5 delay =
        ⟨some "", [], 1⟩ := by
  refine ⟨?_, ?_, ?_⟩
  · have h1 := scanGo_resp outcome delay 0 4 200 rf h0
    simpa using h1
  · have h1 := scanGo_resp (fun _ => Outcome.httpResponse 200 none) delay 0 4 200 none rfl
    simpa using h1
  · have h1 := scanGo_resp (fun _ => Outcome.httpResponse 200 (some "")) delay 0 4 200
      (some "") rfl
    simpa using h1

theorem c9_witness :
    scan_chunk_with_llm (fun _ => Outcome.httpResponse 200 (some "No PII detected.")) 5 3 =
      ⟨some "No PII detected.", [], 1⟩ :=
  (c9_http200_returns_field (fun _ => Outcome.httpResponse 200 (some "No PII detected."))
    3 (some "No PII detected.") rfl).1

/-- C1 counterexample: a present but empty Verdict string is skipped by
the reporter (Python truthiness of the empty string), not flagged as the
claim requires. -/
theorem c1_counterexample :
    reportOf (some "") = Report.skipped ∧ reportOf (some "") ≠ Report.flagged "" := by
  exact ⟨rfl, by decide⟩

/-- C1 amended: for a non-empty Verdict string the chunk is classified
clean exactly when the Verdict contains "No PII detected" and flagged
with the full Verdict text otherwise; an absent Verdict (and likewise an
empty one) is silently skipped. -/
theorem c1_reporter_classification (s : String) (h : s ≠ "") :
    reportOf (some s) =
      (if strContains "No PII detected" s then Report.clean else Report.flagged s) ∧
      reportOf none = Report.skipped := by
  refine ⟨?_, rfl⟩
  have e : reportOf (some s) =
      (if s = "" then Report.skipped
       else if strContains "No PII detected" s then Report.clean
       else Report.flagged s) := rfl
  rw [e, if_neg h]

theorem c1_witness :
    reportOf (some "Detected: jane@example.com") =
      (if strContains "No PII detected" "Detected: jane@example.com" then Report.clean
       else Report.flagged "Detected: jane@example.com") ∧
      reportOf none = Report.skipped :=
  c1_reporter_classification "Detected: jane@example.com" (by decide)

/-- C6: when the pre-flight probe raises a transport failure or returns
a status other than 200, check_ollama_server is false and main aborts
before handing any file to process_file, so no per-file event occurs. -/
theorem c6_preflight_gate (env : Env) (h : check_ollama_server env.probe = false) :
    noFileEvents (main env) = true := by
  unfold main
  rcases env with ⟨fb, probe, files⟩
  cases fb with
  | false => rfl
  | true => simp [h, noFileEvents]

theorem c6_witness :
    check_ollama_server (Env.mk true none ["a.csv"]).probe = false ∧
      noFileEvents (main (Env.mk true none ["a.csv"])) = true :=
  ⟨rfl, c6_preflight_gate (Env.mk true none ["a.csv"]) rfl⟩

/-- C7 counterexample: a directory containing only "A.CSV" produces no
per-file processing and no unsupported-format warning (main filters with
a case-sensitive endswith), while the lower-case "a.csv" is processed,
so upper-case variants are not processed the same as lower-case ones. -/
theorem c7_counterexample :
    main (Env.mk true (some 200) ["A.CSV"]) = [MainEvent.logNoDatasets] ∧
      main (Env.mk true (some 200) ["a.csv"]) =
        [MainEvent.fileAction "Data/a.csv" FileAction.csvLoad] := by
  constructor
  · rfl
  · rfl

/-- C7 amended: process_file selects the format from the lowercased
extension, so two paths with the same lowercased extension get the same
action, and an unrecognized extension is a warning-and-skip; but a file
only reaches process_file through the case-sensitive endswith filter of
main, which silently drops upper- or mixed-case variants; every selected
file is processed regardless of the actions taken on the others. -/
theorem c7_extension_dispatch (p q : String) (env : Env)
    (h : pyLower (extOf p) = pyLower (extOf q))
    (hd : env.dataFolderExists = true)
    (hp : check_ollama_server env.probe = true)
    (hne : (env.files.filter selectFile).isEmpty = false) :
    processFileAction p = processFileAction q ∧
      main env = (env.files.filter selectFile).map
        (fun f => MainEvent.fileAction ("Data/" ++ f) (processFileAction ("Data/" ++ f))) ∧
      processFileAction "notes.txt" = FileAction.warnUnsupported := by
  refine ⟨?_, ?_, rfl⟩
  · unfold processFileAction
    rw [h]
  · unfold main
    simp [hd, hp, hne]

theorem c7_witness :
    processFileAction "A.CSV" = processFileAction "a.csv" ∧
      main (Env.mk true (some 200) ["b.xls"]) =
        [MainEvent.fileAction "Data/b.xls" (processFileAction "Data/b.xls")] ∧
      processFileAction "notes.txt" = FileAction.warnUnsupported := by
  have h1 := c7_extension_dispatch "A.CSV" "a.csv" (Env.mk true (some 200) ["b.xls"])
    (by decide) rfl rfl (by decide)
  exact h1

/-- Chunk size constant from line 16 of pii_scanner.py. -/
def CHUNK_SIZE : Nat := 1000

/-- Start indices of the chunk loop on line 135: range(0, n, cs), which
has ceil(n / cs) elements. -/
def chunkStarts (n cs : Nat) : List Nat :=
  List.range' 0 ((n + cs - 1) / cs) cs

/-- Chunks produced by the loop on lines 135-136: df.iloc[i : i + cs]
for each start index i. -/
def chunksOf (rows : List α) (cs : Nat) : List (List α) :=
  (chunkStarts rows.length cs).map (fun i => (rows.drop i).take cs)

/-- True when every chunk except possibly the last has exactly cs rows. -/
def chunksAllFull (cs : Nat) (L : List (List α)) : Bool :=
  L.dropLast.all (fun c => c.length == cs)

theorem range'_map_chunks (cs : Nat) (rows : List α) :
    ∀ (k s : Nat),
      ((List.range' s k cs).map (fun i => (rows.drop i).take cs)).flatten =
        (rows.drop s).take (k * cs) := by
  intro k
  induction k with
  | zero => intro s; simp
  | succ k ih =>
    intro s
    rw [List.range'_succ]
    simp only [List.map_cons, List.flatten_cons]
    rw [ih (s + cs), Nat.succ_mul, Nat.add_comm (k * cs) cs, List.take_add, List.drop_drop]

theorem length_le_ceil_mul (n cs : Nat) (h : 0 < cs) : n ≤ ((n + cs - 1) / cs) * cs := by
  rcases Nat.eq_zero_or_pos n with h0 | h0
  · simp [h0]
  · have e : n + cs - 1 = (n - 1) + cs := by omega
    rw [e, Nat.add_div_right _ h, Nat.succ_mul]
    have h3 := Nat.div_add_mod (n - 1) cs
    have h3b : (n - 1) / cs * cs + (n - 1) % cs = n - 1 := by
      rw [Nat.mul_comm ((n - 1) / cs) cs]
      exact h3
    have h4 := Nat.mod_lt (n - 1) h
    omega

theorem chunksOf_flatten (rows : List α) (cs : Nat) (h : 0 < cs) :
    (chunksOf rows cs).flatten = rows := by
  unfold chunksOf chunkStarts
  rw [range'_map_chunks cs rows ((rows.length + cs - 1) / cs) 0, List.drop_zero]
  exact List.take_of_length_le (length_le_ceil_mul rows.length cs h)

theorem chunksAllFull_cons (cs : Nat) (c : List α) (l : List (List α)) (hl : l ≠ []) :
    chunksAllFull cs (c :: l) = ((c.length == cs) && chunksAllFull cs l) := by
  unfold chunksAllFull
  rw [List.dropLast_cons_of_ne_nil hl, List.all_cons]

theorem chunks_allFull_aux (cs : Nat) (rows : List α) :
    ∀ (k s : Nat), s + (k - 1) * cs ≤ rows.length →
      chunksAllFull cs ((List.range' s k cs).map (fun i => (rows.drop i).take cs)) = true := by
  intro k
  induction k with
  | zero => intro s _; rfl
  | succ k ih =>
    intro s h
    cases k with
    | zero => rfl
    | succ k2 =>
      have h2 : s + (k2 + 1) * cs ≤ rows.length := by simpa using h
      have e : (k2 + 1) * cs = k2 * cs + cs := Nat.succ_mul k2 cs
      rw [List.range'_succ]
      simp only [List.map_cons]
      rw [chunksAllFull_cons cs _ _ (by rw [List.range'_succ]; simp)]
      rw [Bool.and_eq_true]
      constructor
      · have hcs : cs ≤ (k2 + 1) * cs := Nat.le_mul_of_pos_left cs (by omega)
        simp only [List.length_take, List.length_drop, beq_iff_eq]
        omega
      · exact ih (s + cs) (by simp only [Nat.add_sub_cancel]; omega)

theorem chunksOf_allFull (rows : List α) (cs : Nat) (h : 0 < cs) :
    chunksAllFull cs (chunksOf rows cs) = true := by
  unfold chunksOf chunkStarts
  apply chunks_allFull_aux
  rcases Nat.eq_zero_or_pos rows.length with h0 | h0
  · rw [h0]
    have e : (0 + cs - 1) / cs = 0 := Nat.div_eq_of_lt (by omega)
    rw [e]
    simp
  · have e : rows.length + cs - 1 = (rows.length - 1) + cs := by omega
    rw [e, Nat.add_div_right _ h]
    simp only [Nat.add_sub_cancel]
    have h2 := Nat.div_mul_le_self (rows.length - 1) cs
    omega

theorem chunksOf_two (rows : List α) (h : rows.length = 1500) :
    chunksOf rows CHUNK_SIZE = [rows.take 1000, rows.drop 1000] := by
  unfold chunksOf chunkStarts CHUNK_SIZE
  rw [h]
  have e : (1500 + 1000 - 1) / 1000 = 2 := by norm_num
  rw [e]
  have e2 : List.range' 0 2 1000 = [0, 1000] := rfl
  rw [e2]
  simp only [List.map_cons, List.map_nil, List.drop_zero]
  have e3 : (rows.drop 1000).take 1000 = rows.drop 1000 :=
    List.take_of_length_le (by simp [h])
  rw [e3]

/-- C2: chunking partitions the rows: the concatenation of the produced
chunks is exactly the row list (each row once, in order, no overlap),
every chunk except possibly the last is full, and a 1500-row table with
the fixed chunk size 1000 yields exactly the two chunks holding rows
0-999 and rows 1000-1499. -/
theorem c2_chunk_partition (rows : List α) (cs : Nat) (h : 0 < cs) :
    (chunksOf rows cs).flatten = rows ∧
      chunksAllFull cs (chunksOf rows cs) = true ∧
      chunksOf (List.range 1500) CHUNK_SIZE =
        [(List.range 1500).take 1000, (List.range 1500).drop 1000] :=
  ⟨chunksOf_flatten rows cs h, chunksOf_allFull rows cs h,
    chunksOf_two (List.range 1500) (by simp)⟩

theorem c2_witness :
    (0 : Nat) < 2 ∧
      ((chunksOf [10, 20, 30] 2).flatten = [10, 20, 30] ∧
        chunksAllFull 2 (chunksOf [10, 20, 30] 2) = true ∧
        chunksOf (List.range 1500) CHUNK_SIZE =
          [(List.range 1500).take 1000, (List.range 1500).drop 1000]) :=
  ⟨by decide, c2_chunk_partition [10, 20, 30] 2 (by decide)⟩

/-- Loaded table: with skiprows=1 the first file line is discarded and
the next line is consumed as the column header, so the data rows are the
file lines from index 2 on. -/
structure PyTable where
  headerRow : List Cell
  rows : List (List Cell)
deriving DecidableEq

/-- Model of pd.read_csv(..., skiprows=1) and pd.read_excel(...,
skiprows=1) on lines 102 and 104, applied to the list of cell rows of
the file. -/
def loadTable (fileLines : List (List Cell)) : PyTable :=
  ⟨(fileLines.drop 1).headD [], fileLines.drop 2⟩

/-- Every token the scanner ever submits for a loaded table: the chunk
loop flattens each chunk with extract_non_null_data. -/
def allScannedTokens (t : PyTable) : List String :=
  (chunksOf t.rows CHUNK_SIZE).flatMap extract_non_null_data

theorem extract_append (a b : List (List Cell)) :
    extract_non_null_data (a ++ b) =
      extract_non_null_data a ++ extract_non_null_data b := by
  unfold extract_non_null_data
  exact List.flatMap_append a b _

theorem extract_flatten (L : List (List (List Cell))) :
    L.flatMap extract_non_null_data = extract_non_null_data L.flatten := by
  induction L with
  | nil => rfl
  | cons c cs ih => simp [List.flatMap_cons, List.flatten_cons, extract_append, ih]

/-- C10: loading skips the first file line outright and consumes the
second as the header, so the loaded rows are exactly the file lines from
the third on, and the tokens ever scanned for PII are exactly those
extracted from these rows: no cell of the first two lines is ever
loaded, flattened or scanned. -/
theorem c10_skiprows_drops_two_lines (l0 l1 : List Cell) (rest : List (List Cell)) :
    (loadTable (l0 :: l1 :: rest)).rows = rest ∧
      (loadTable (l0 :: l1 :: rest)).headerRow = l1 ∧
      allScannedTokens (loadTable (l0 :: l1 :: rest)) = extract_non_null_data rest := by
  refine ⟨rfl, rfl, ?_⟩
  show (chunksOf rest CHUNK_SIZE).flatMap extract_non_null_data = extract_non_null_data rest
  rw [extract_flatten, chunksOf_flatten rest CHUNK_SIZE (by decide)]

theorem digitChar_isDigit (k : Nat) : ('0' ≤ digitChar k && digitChar k ≤ '9') = true := by
  match k with
  | 0 => decide
  | 1 => decide
  | 2 => decide
  | 3 => decide
  | 4 => decide
  | 5 => decide
  | 6 => decide
  | 7 => decide
  | 8 => decide
  | _ + 9 => rfl

theorem natDigs_digits (n : Nat) :
    ∀ c ∈ natDigs n, ('0' ≤ c && c ≤ '9') = true := by
  induction n using Nat.strong_induction_on with
  | _ n ih =>
    intro c hc
    by_cases h10 : n < 10
    · rw [natDigs, dif_pos h10] at hc
      simp only [List.mem_singleton] at hc
      rw [hc]
      exact digitChar_isDigit n
    · rw [natDigs, dif_neg h10] at hc
      rw [List.mem_append] at hc
      rcases hc with hc | hc
      · exact ih (n / 10) (Nat.div_lt_self (by omega) (by omega)) c hc
      · simp only [List.mem_singleton] at hc
        rw [hc]
        exact digitChar_isDigit (n % 10)

theorem natDigs_ne_nil (n : Nat) : natDigs n ≠ [] := by
  by_cases h10 : n < 10
  · rw [natDigs, dif_pos h10]
    simp
  · rw [natDigs, dif_neg h10]
    simp

theorem natDigs_head_digit (m : Nat) :
    ∃ c t, natDigs m = c :: t ∧ ('0' ≤ c && c ≤ '9') = true := by
  rcases h : natDigs m with _ | ⟨c, t⟩
  · exact absurd h (natDigs_ne_nil m)
  · exact ⟨c, t, rfl, natDigs_digits m c (by rw [h]; simp)⟩

theorem mk_cons_not_sentinel (h0 : Char) (rest : List Char)
    (hn : h0 ≠ 'n') (hN : h0 ≠ 'N') :
    (String.mk (h0 :: rest) = "" ∨ String.mk (h0 :: rest) = "nan" ∨
        String.mk (h0 :: rest) = "NaN" ∨ String.mk (h0 :: rest) = "NAN") → False := by
  intro hc
  rcases hc with h | h | h | h
  · have hd : h0 :: rest = ([] : List Char) := congrArg String.data h
    exact List.cons_ne_nil h0 rest hd
  · have hd : h0 :: rest = ['n', 'a', 'n'] := congrArg String.data h
    rw [List.cons.injEq] at hd
    exact hn hd.1
  · have hd : h0 :: rest = ['N', 'a', 'N'] := congrArg String.data h
    rw [List.cons.injEq] at hd
    exact hN hd.1
  · have hd : h0 :: rest = ['N', 'A', 'N'] := congrArg String.data h
    rw [List.cons.injEq] at hd
    exact hN hd.1

theorem intStr_not_sentinel (n : Int) :
    intStr n ∉ (["", "nan", "NaN", "NAN"] : List String) := by
  intro hmem
  simp only [List.mem_cons, List.not_mem_nil, or_false] at hmem
  obtain ⟨c, t, he, hd⟩ := natDigs_head_digit n.natAbs
  have hcn : c ≠ 'n' := by
    intro hx
    rw [hx] at hd
    exact absurd hd (by decide)
  have hcN : c ≠ 'N' := by
    intro hx
    rw [hx] at hd
    exact absurd hd (by decide)
  unfold intStr at hmem
  by_cases hneg : n < 0
  · rw [if_pos hneg] at hmem
    exact mk_cons_not_sentinel '-' (natDigs n.natAbs) (by decide) (by decide) hmem
  · rw [if_neg hneg, he] at hmem
    exact mk_cons_not_sentinel c t hcn hcN hmem

theorem cellKeep_eq_spec (v : Cell) : cellKeep v = cellKeepSpec v := by
  cases v with
  | null => rfl
  | str s =>
    by_cases hs : s ∈ (["", "nan", "NaN", "NAN"] : List String)
    · have hs2 := hs
      simp only [List.mem_cons, List.not_mem_nil, or_false] at hs2
      rcases hs2 with rfl | rfl | rfl | rfl <;> rfl
    · have hs2 := hs
      simp only [List.mem_cons, List.not_mem_nil, or_false, not_or] at hs2
      obtain ⟨h1, h2, h3, h4⟩ := hs2
      have hb : inEmptySentinels (Cell.str s) = false := by
        simp [inEmptySentinels, h1, h2, h3, h4]
      have hcode : cellKeep (Cell.str s) = some (pyStrip s) := by
        simp [cellKeep, pyNotNa, pyStr, hb]
      have hspec : cellKeepSpec (Cell.str s) = some (pyStrip s) := by
        simp [cellKeepSpec, pyNotNa, pyStr, hs]
      rw [hcode, hspec]
  | num n =>
    have hm : pyStr (Cell.num n) ∉ (["", "nan", "NaN", "NAN"] : List String) := by
      simpa [pyStr] using intStr_not_sentinel n
    have hcode : cellKeep (Cell.num n) = some (pyStrip (intStr n)) := by
      simp [cellKeep, pyNotNa, inEmptySentinels, pyStr]
    have hm2 : ¬intStr n = "" ∧ ¬intStr n = "nan" ∧ ¬intStr n = "NaN" ∧ ¬intStr n = "NAN" := by
      simpa [pyStr, not_or] using hm
    have hspec : cellKeepSpec (Cell.num n) = some (pyStrip (intStr n)) := by
      simp [cellKeepSpec, pyNotNa, pyStr, hm2.1, hm2.2.1, hm2.2.2.1, hm2.2.2.2]
    rw [hcode, hspec]

theorem extract_eq_specTokens (chunk : List (List Cell)) :
    extract_non_null_data chunk = specTokens chunk := by
  unfold extract_non_null_data specTokens
  rw [funext cellKeep_eq_spec]

/-- C5: the flattener visits cells in row-major order, skips missing
values and the sentinel strings (with the sentinel test equivalent to
comparing the stringified value, since a number never stringifies to a
sentinel), stringifies and trims the survivors, and the flattened text
is the resulting tokens joined by single spaces; it is a pure function
of the chunk, matching the token list written from the words of the
specification. -/
theorem c5_flattener_matches_spec (chunk : List (List Cell)) :
    extract_non_null_data chunk = specTokens chunk ∧
      dataset_text chunk = joinSpaces (specTokens chunk) := by
  refine ⟨extract_eq_specTokens chunk, ?_⟩
  unfold dataset_text
  rw [extract_eq_specTokens chunk]

/-- Splitting of a character list at every space character, with an
accumulator for the token being read: the model of the Python
str.split(" ") used to re-tokenize flattened text. -/
def splitChars : List Char → List Char → List (List Char)
  | [], acc => [acc.reverse]
  | c :: cs, acc =>
    if c = ' ' then acc.reverse :: splitChars cs [] else splitChars cs (c :: acc)

/-- Split a string on single space characters. -/
def splitSpaces (s : String) : List String :=
  (splitChars s.data []).map String.mk

/-- Re-assemble a token list as a single-column chunk of string cells. -/
def rebuildChunk (ts : List String) : List (List Cell) :=
  ts.map (fun t => [Cell.str t])

theorem splitChars_no_space (l : List Char) :
    ∀ acc, (∀ c ∈ l, c ≠ ' ') → splitChars l acc = [acc.reverse ++ l] := by
  induction l with
  | nil =>
    intro acc _
    simp [splitChars]
  | cons c cs ih =>
    intro acc h
    have hc : c ≠ ' ' := h c (by simp)
    show (if c = ' ' then acc.reverse :: splitChars cs [] else splitChars cs (c :: acc)) =
      [acc.reverse ++ c :: cs]
    rw [if_neg hc, ih (c :: acc) (fun d hd => h d (by simp [hd]))]
    simp

theorem splitChars_token (t : List Char) :
    ∀ (rest : List Char) (acc : List Char), (∀ c ∈ t, c ≠ ' ') →
      splitChars (t ++ ' ' :: rest) acc = (acc.reverse ++ t) :: splitChars rest [] := by
  induction t with
  | nil =>
    intro rest acc _
    show (if ' ' = ' ' then acc.reverse :: splitChars rest [] else splitChars rest (' ' :: acc)) =
      (acc.reverse ++ []) :: splitChars rest []
    rw [if_pos rfl]
    simp
  | cons c cs ih =>
    intro rest acc h
    have hc : c ≠ ' ' := h c (by simp)
    show (if c = ' ' then acc.reverse :: splitChars (cs ++ ' ' :: rest) []
        else splitChars (cs ++ ' ' :: rest) (c :: acc)) =
      (acc.reverse ++ c :: cs) :: splitChars rest []
    rw [if_neg hc, ih rest (c :: acc) (fun d hd => h d (by simp [hd]))]
    simp

theorem split_join_roundtrip (ts : List (List Char)) :
    ts ≠ [] → (∀ t ∈ ts, ∀ c ∈ t, c ≠ ' ') →
      splitChars (joinChars ts) [] = ts := by
  induction ts with
  | nil => intro h _; exact absurd rfl h
  | cons t rest ih =>
    intro _ h
    cases rest with
    | nil =>
      rw [show joinChars [t] = t from rfl]
      rw [splitChars_no_space t [] (h t (by simp))]
      simp
    | cons u rest2 =>
      rw [show joinChars (t :: u :: rest2) = t ++ ' ' :: joinChars (u :: rest2) from rfl]
      rw [splitChars_token t (joinChars (u :: rest2)) [] (h t (by simp))]
      rw [ih (by simp) (fun x hx c hc => h x (by simp [hx]) c hc)]
      simp

theorem dropWhile_no (p : Char → Bool) (l : List Char) (h : ∀ c ∈ l, p c = false) :
    l.dropWhile p = l := by
  cases l with
  | nil => rfl
  | cons c cs =>
    rw [List.dropWhile_cons, h c (by simp)]
    simp

theorem pyStrip_no_ws (s : String) (h : ∀ c ∈ s.data, c.isWhitespace = false) :
    pyStrip s = s := by
  unfold pyStrip stripList
  rw [dropWhile_no _ _ h]
  rw [dropWhile_no _ _ (fun c hc => h c (by simpa using hc))]
  simp

theorem extract_rebuild (ts : List String)
    (h : ∀ t ∈ ts, t ∉ (["", "nan", "NaN", "NAN"] : List String) ∧
      ∀ c ∈ t.data, c.isWhitespace = false) :
    extract_non_null_data (rebuildChunk ts) = ts := by
  induction ts with
  | nil => rfl
  | cons t rest ih =>
    have ht := h t (by simp)
    have hm := ht.1
    simp only [List.mem_cons, List.not_mem_nil, or_false, not_or] at hm
    have hb : inEmptySentinels (Cell.str t) = false := by
      simp [inEmptySentinels, hm.1, hm.2.1, hm.2.2.1, hm.2.2.2]
    have hcell : cellKeep (Cell.str t) = some (pyStrip t) := by
      simp [cellKeep, pyNotNa, pyStr, hb]
    have ihh := ih (fun x hx => h x (by simp [hx]))
    unfold extract_non_null_data rebuildChunk at ihh ⊢
    simp only [List.map_cons, List.flatMap_cons, List.filterMap_cons, List.filterMap_nil,
      hcell]
    rw [pyStrip_no_ws t ht.2, ihh]
    rfl

/-- C8 counterexample: flattening is not idempotent in the claimed
sense: a single cell "a b" flattens to the one token "a b", but
splitting on spaces and re-flattening the rebuilt single-column chunk
yields the two tokens "a" and "b". -/
theorem c8_counterexample :
    extract_non_null_data
        (rebuildChunk (splitSpaces (joinSpaces (extract_non_null_data
          [[Cell.str "a b"]])))) ≠
      extract_non_null_data [[Cell.str "a b"]] := by
  decide

/-- C8 amended: flattening is idempotent in the claimed sense for every
chunk whose flattened tokens contain no whitespace character and are not
sentinel strings: splitting the flattened output on spaces and
re-flattening the rebuilt single-column chunk returns exactly the
original token sequence. -/
theorem c8_flatten_idempotent (chunk : List (List Cell))
    (h : ∀ t ∈ extract_non_null_data chunk,
      t ∉ (["", "nan", "NaN", "NAN"] : List String) ∧
        ∀ c ∈ t.data, c.isWhitespace = false) :
    extract_non_null_data
        (rebuildChunk (splitSpaces (joinSpaces (extract_non_null_data chunk)))) =
      extract_non_null_data chunk := by
  set ts := extract_non_null_data chunk with hts
  rcases eq_or_ne ts [] with h0 | h0
  · rw [h0]
    rfl
  · have hnosp : ∀ l ∈ ts.map String.data, ∀ c ∈ l, c ≠ ' ' := by
      intro l hl c hc
      obtain ⟨t, htmem, rfl⟩ := List.mem_map.mp hl
      have hws := (h t htmem).2 c hc
      intro hceq
      rw [hceq] at hws
      exact absurd hws (by decide)
    have hsplit : splitSpaces (joinSpaces ts) = ts := by
      unfold splitSpaces joinSpaces
      rw [split_join_roundtrip (ts.map String.data) (by simpa using h0) hnosp]
      rw [List.map_map]
      have e : (String.mk ∘ String.data) = id := funext (fun s => rfl)
      rw [e, List.map_id]
    rw [hsplit]
    exact extract_rebuild ts h

theorem c8_witness :
    extract_non_null_data
        (rebuildChunk (splitSpaces (joinSpaces (extract_non_null_data
          [[Cell.str "abc"]])))) =
      extract_non_null_data [[Cell.str "abc"]] :=
  c8_flatten_idempotent [[Cell.str "abc"]] (by decide)

end PiiScan
